import Mathlib

/-!
Verification of the CSS URL segmentation core of
`validator/cpp/htmlparser/css/parse-css-urls.h`.

The repository snapshot contains only the header: the bodies of
`Preprocess`, `Tokenize` and `SegmentCss` live in the missing
`parse-css-urls.cc`.  Those three operations are therefore modelled from
the specification document (each such definition carries a doc comment
starting with `Modelled from the spec:`).  The `Token` class with its
`pos`/`set_pos`/`CopyStartPositionTo` members is defined inline in the
header and is embedded directly from that source.

Unicode codepoints are represented as `Nat`; a UTF-8 stylesheet is
represented by its decoded codepoint sequence `List Nat`.
-/

namespace CssUrls

/-- Codepoint helper: decimal digit `0-9`. -/
def isDigit (c : Nat) : Bool :=
  decide (0x30 ≤ c) && decide (c ≤ 0x39)

/-- Codepoint helper: hexadecimal digit. -/
def isHexDigit (c : Nat) : Bool :=
  isDigit c || (decide (0x41 ≤ c) && decide (c ≤ 0x46)) ||
    (decide (0x61 ≤ c) && decide (c ≤ 0x66))

/-- Codepoint helper: ASCII letter. -/
def isLetter (c : Nat) : Bool :=
  (decide (0x41 ≤ c) && decide (c ≤ 0x5A)) ||
    (decide (0x61 ≤ c) && decide (c ≤ 0x7A))

/-- Codepoint helper: identifier-start codepoint (letter, `_`, or non-ASCII). -/
def isNameStart (c : Nat) : Bool :=
  isLetter c || c == 0x5F || decide (0x80 ≤ c)

/-- Codepoint helper: identifier-continue codepoint (name-start, digit, `-`). -/
def isNameChar (c : Nat) : Bool :=
  isNameStart c || isDigit c || c == 0x2D

/-- Codepoint helper: CSS whitespace after preprocessing (space, tab, newline). -/
def isWs (c : Nat) : Bool :=
  c == 0x20 || c == 0x09 || c == 0x0A

/-- Codepoint helper: UTF-16 surrogate codepoint. -/
def isSurrogate (c : Nat) : Bool :=
  decide (0xD800 ≤ c) && decide (c ≤ 0xDFFF)

/-- Convert an ASCII uppercase letter to lowercase, other codepoints unchanged. -/
def toLowerCp (c : Nat) : Nat :=
  if 0x41 ≤ c ∧ c ≤ 0x5A then c + 0x20 else c

/-- ASCII-lowercase a codepoint sequence. -/
def lowerList (l : List Nat) : List Nat := l.map toLowerCp

/-- Codepoint sequence of a Lean string literal (used to state concrete claims). -/
def cps (s : String) : List Nat := s.data.map Char.toNat

/-- Modelled from the spec: `Preprocess` (declared at parse-css-urls.h:25, body
in the missing parse-css-urls.cc).  Collapses each `"\r\n"` pair and each lone
`"\r"` to a single `"\n"` and replaces NUL and any surrogate codepoint with the
Unicode replacement character U+FFFD; every other codepoint is kept unchanged,
in order. -/
def Preprocess : List Nat → List Nat
  | [] => []
  | c :: rest =>
    if c = 0x0D then
      match rest with
      | [] => [0x0A]
      | d :: rest2 =>
        if d = 0x0A then 0x0A :: Preprocess rest2
        else 0x0A :: Preprocess (d :: rest2)
    else (if c = 0 ∨ isSurrogate c = true then 0xFFFD else c) :: Preprocess rest

/-- A codepoint that preprocessing leaves unchanged: not CR, not NUL,
not a surrogate. -/
def goodCp (c : Nat) : Bool :=
  c != 0x0D && c != 0 && !(isSurrogate c)

/-! ## Tokenizer

Modelled from the spec, section 4.2: a single left-to-right pass producing the
ordered token sequence and a side count of lexical error records.  Scanner
helpers return the number of codepoints they consumed; recursions that are not
structural on the input list take an explicit fuel argument (callers always
pass at least the length of the input, so the fuel never runs out in practice).
-/

/-- Token kinds, mirroring the `TokenType::Code` discriminants of the `Token`
class hierarchy of parse-css-urls.h (one constructor per leaf class; the
string-valued kinds carry their decoded payload). -/
inductive Tok where
  | whitespace
  | cdo
  | cdc
  | colon
  | semicolon
  | comma
  | openCurly
  | closeCurly
  | openSquare
  | closeSquare
  | openParen
  | closeParen
  | includeMatch
  | dashMatch
  | prefixMatch
  | suffixMatch
  | substringMatch
  | column
  | eofToken
  | delim (c : Nat)
  | ident (v : List Nat)
  | functionToken (v : List Nat)
  | atKeyword (v : List Nat)
  | hash (v : List Nat)
  | stringToken (v : List Nat)
  | url (v : List Nat)
  | number
  | percentage
  | dimension
  | errorToken
deriving DecidableEq, Repr

/-- Is this the end-marker token? -/
def isEofTok : Tok → Bool
  | Tok.eofToken => true
  | _ => false

/-- Valid-escape check after the backslash: a next codepoint exists and is not
a newline. -/
def validEscapeTail : List Nat → Bool
  | [] => false
  | c :: _ => c != 0x0A

/-- Numeric value of a hex-digit codepoint. -/
def hexVal (c : Nat) : Nat :=
  if 0x30 ≤ c ∧ c ≤ 0x39 then c - 0x30
  else if 0x41 ≤ c ∧ c ≤ 0x46 then c - 0x37
  else c - 0x57

/-- Consume up to `n` further hex digits, accumulating their value onto `acc`;
returns the accumulated value and the count of digits consumed. -/
def takeHex : Nat → Nat → List Nat → Nat × Nat
  | 0, acc, _ => (acc, 0)
  | _ + 1, acc, [] => (acc, 0)
  | n + 1, acc, c :: rest =>
    if isHexDigit c then
      let r := takeHex n (16 * acc + hexVal c) rest
      (r.1, r.2 + 1)
    else (acc, 0)

/-- Modelled from the spec: escape decoding as used by identifiers, strings and
url tokens.  Input is the sequence after the backslash; a backslash followed by
up to six hex digits (plus one optional trailing whitespace) denotes a
codepoint (zero, surrogates and out-of-range values become U+FFFD); a backslash
followed by any other codepoint denotes that literal codepoint.  Returns the
decoded codepoint and the number of codepoints consumed after the backslash. -/
def consumeEscape : List Nat → Nat × Nat
  | [] => (0xFFFD, 0)
  | c :: rest =>
    if isHexDigit c then
      let r := takeHex 5 (hexVal c) rest
      let wk : Nat :=
        match rest.drop r.2 with
        | d :: _ => if isWs d then 1 else 0
        | [] => 0
      let cp := if r.1 = 0 ∨ isSurrogate r.1 = true ∨ 0x10FFFF < r.1 then 0xFFFD else r.1
      (cp, 1 + r.2 + wk)
    else (c, 1)

/-- Length of the leading run of whitespace codepoints. -/
def wsCount : List Nat → Nat
  | c :: rest => if isWs c then wsCount rest + 1 else 0
  | [] => 0

/-- Length of the leading run of decimal digits. -/
def digitsLen : List Nat → Nat
  | c :: rest => if isDigit c then digitsLen rest + 1 else 0
  | [] => 0

/-- Modelled from the spec: consume a name (identifier-continue codepoints with
escape decoding).  Returns the decoded name and the count consumed. -/
def consumeName : Nat → List Nat → List Nat × Nat
  | _, [] => ([], 0)
  | 0, _ => ([], 0)
  | fuel + 1, c :: rest =>
    if isNameChar c then
      let r := consumeName fuel rest
      (c :: r.1, r.2 + 1)
    else if c == 0x5C && validEscapeTail rest then
      let e := consumeEscape rest
      let r := consumeName fuel (rest.drop e.2)
      (e.1 :: r.1, 1 + e.2 + r.2)
    else ([], 0)

/-- Would the next codepoints start a number (optional sign, then digits or a
dot followed by a digit)? -/
def startsNumber : List Nat → Bool
  | c :: rest =>
    if c = 0x2B ∨ c = 0x2D then
      match rest with
      | d :: rest2 =>
        isDigit d ||
          (d == 0x2E &&
            (match rest2 with
             | e :: _ => isDigit e
             | [] => false))
      | [] => false
    else if c = 0x2E then
      match rest with
      | d :: _ => isDigit d
      | [] => false
    else isDigit c
  | [] => false

/-- Would the next codepoints start an identifier? -/
def wouldStartIdent : List Nat → Bool
  | c :: rest =>
    if c = 0x2D then
      match rest with
      | d :: rest2 => isNameStart d || d == 0x2D || (d == 0x5C && validEscapeTail rest2)
      | [] => false
    else if isNameStart c then true
    else if c = 0x5C then validEscapeTail rest
    else false
  | [] => false

/-- Length of the longest prefix matching the CSS number grammar: optional
sign, digits, optional fraction, optional exponent. -/
def numberLen (s : List Nat) : Nat :=
  let sg : Nat :=
    match s with
    | c :: _ => if c = 0x2B ∨ c = 0x2D then 1 else 0
    | [] => 0
  let i := sg + digitsLen (s.drop sg)
  let fr : Nat :=
    match s.drop i with
    | c :: d :: _ => if c = 0x2E ∧ isDigit d = true then 1 + digitsLen (s.drop (i + 1)) else 0
    | _ => 0
  let j := i + fr
  let ex : Nat :=
    match s.drop j with
    | e :: rest =>
      if e = 0x45 ∨ e = 0x65 then
        let sg2 : Nat :=
          match rest with
          | c :: _ => if c = 0x2B ∨ c = 0x2D then 1 else 0
          | [] => 0
        let ed := digitsLen (rest.drop sg2)
        if 0 < ed then 1 + sg2 + ed else 0
      else 0
    | [] => 0
  j + ex

/-- Modelled from the spec: consume a numeric token.  A number immediately
followed by `%` becomes a percentage token, followed by an identifier becomes a
dimension token, otherwise remains a plain number token.  (As in the header,
numeric tokens carry no payload.) -/
def consumeNumeric (fuel : Nat) (s : List Nat) : Tok × Nat :=
  let k := numberLen s
  if wouldStartIdent (s.drop k) then
    let r := consumeName fuel (s.drop k)
    (Tok.dimension, k + r.2)
  else
    match s.drop k with
    | 0x25 :: _ => (Tok.percentage, k + 1)
    | _ => (Tok.number, k)

/-- Does the sequence begin with a name codepoint or a valid escape? -/
def nameCharOrEscape : List Nat → Bool
  | c :: rest => isNameChar c || (c == 0x5C && validEscapeTail rest)
  | [] => false

/-- Modelled from the spec: consume a string token body after the opening
quote `q`.  Backslash escapes are decoded (backslash-newline is a line
continuation); an unescaped newline emits a lexical error and terminates the
string early, leaving the newline unconsumed (bad-string recovery); EOF closes
the string.  Returns (token, consumed-after-quote, error count). -/
def consumeStringBody : Nat → Nat → List Nat → List Nat → Tok × Nat × Nat
  | _, _, [], acc => (Tok.stringToken acc.reverse, 0, 0)
  | 0, _, _, acc => (Tok.stringToken acc.reverse, 0, 0)
  | fuel + 1, q, c :: rest, acc =>
    if c = q then (Tok.stringToken acc.reverse, 1, 0)
    else if c = 0x0A then (Tok.errorToken, 0, 1)
    else if c = 0x5C then
      match rest with
      | [] => (Tok.stringToken acc.reverse, 1, 0)
      | d :: rest2 =>
        if d = 0x0A then
          let r := consumeStringBody fuel q rest2 acc
          (r.1, 2 + r.2.1, r.2.2)
        else
          let e := consumeEscape rest
          let r := consumeStringBody fuel q (rest.drop e.2) (e.1 :: acc)
          (r.1, 1 + e.2 + r.2.1, r.2.2)
    else
      let r := consumeStringBody fuel q rest (c :: acc)
      (r.1, 1 + r.2.1, r.2.2)

/-- Modelled from the spec: bad-url recovery.  Discard remaining codepoints up
to and including the next unescaped `)` (or end of input); valid escapes are
consumed whole so an escaped `)` does not terminate.  Returns the count
consumed. -/
def badUrlRemnants : Nat → List Nat → Nat
  | _, [] => 0
  | 0, _ => 0
  | fuel + 1, c :: rest =>
    if c = 0x29 then 1
    else if c = 0x5C ∧ validEscapeTail rest = true then
      let e := consumeEscape rest
      1 + e.2 + badUrlRemnants fuel (rest.drop e.2)
    else 1 + badUrlRemnants fuel rest

/-- Modelled from the spec: consume the body of a url token (after `url(` and
any leading whitespace was skipped by the caller).  Decodes escapes until an
unescaped `)`; an embedded quote or `(`, whitespace not followed by the
closing `)`, or an unterminated sequence triggers bad-url recovery: a lexical
error is recorded and an error token is produced in the main stream.  Returns
(token, consumed, error count). -/
def consumeUrlBody : Nat → List Nat → List Nat → Tok × Nat × Nat
  | _, [], _ => (Tok.errorToken, 0, 1)
  | 0, _, _ => (Tok.errorToken, 0, 1)
  | fuel + 1, c :: rest, acc =>
    if c = 0x29 then (Tok.url acc.reverse, 1, 0)
    else if isWs c then
      let w := wsCount (c :: rest)
      match (c :: rest).drop w with
      | 0x29 :: _ => (Tok.url acc.reverse, w + 1, 0)
      | [] => (Tok.errorToken, w, 1)
      | _ => (Tok.errorToken, w + badUrlRemnants fuel ((c :: rest).drop w), 1)
    else if c = 0x22 ∨ c = 0x27 ∨ c = 0x28 then
      (Tok.errorToken, 1 + badUrlRemnants fuel rest, 1)
    else if c = 0x5C then
      if validEscapeTail rest then
        let e := consumeEscape rest
        let r := consumeUrlBody fuel (rest.drop e.2) (e.1 :: acc)
        (r.1, 1 + e.2 + r.2.1, r.2.2)
      else (Tok.errorToken, 1 + badUrlRemnants fuel rest, 1)
    else
      let r := consumeUrlBody fuel rest (c :: acc)
      (r.1, 1 + r.2.1, r.2.2)

/-- Modelled from the spec: consume a url token starting right after the
`url(` prefix: skip leading whitespace, then consume the body. -/
def consumeUrlToken (fuel : Nat) (s : List Nat) : Tok × Nat × Nat :=
  let w := wsCount s
  let r := consumeUrlBody fuel (s.drop w) []
  (r.1, w + r.2.1, r.2.2)

/-- Modelled from the spec: consume an ident-like token.  A name equal to
`url` (ASCII case-insensitively) directly followed by `(` and a non-quote
value is tokenized as a single url token; `url(` followed (after optional
whitespace) by a quote character yields a function-name token `url` whose
string argument and closing delimiter are emitted as separate subsequent
tokens; any other name followed by `(` is a function-name token; otherwise an
identifier token. -/
def consumeIdentLike (fuel : Nat) (s : List Nat) : Tok × Nat × Nat :=
  let n := consumeName fuel s
  match s.drop n.2 with
  | 0x28 :: after =>
    if lowerList n.1 = cps "url" then
      let w := wsCount after
      match after.drop w with
      | c :: _ =>
        if c = 0x22 ∨ c = 0x27 then (Tok.functionToken n.1, n.2 + 1, 0)
        else
          let r := consumeUrlToken fuel after
          (r.1, n.2 + 1 + r.2.1, r.2.2)
      | [] =>
        let r := consumeUrlToken fuel after
        (r.1, n.2 + 1 + r.2.1, r.2.2)
    else (Tok.functionToken n.1, n.2 + 1, 0)
  | _ => (Tok.ident n.1, n.2, 0)

/-- Count of codepoints consumed until just after the terminating `*/` of a
comment body (or to end of input when unterminated). -/
def commentEnd : List Nat → Nat
  | 0x2A :: 0x2F :: _ => 2
  | _ :: rest => 1 + commentEnd rest
  | [] => 0

/-- Modelled from the spec: comments `/* ... */` are consumed and discarded,
producing no token, even when unterminated.  Returns the count of codepoints
occupied by the leading run of comments. -/
def commentsLen : Nat → List Nat → Nat
  | 0, _ => 0
  | fuel + 1, 0x2F :: 0x2A :: rest =>
    let k := commentEnd rest
    2 + k + commentsLen fuel (rest.drop k)
  | _ + 1, _ => 0

/-- Does the second list start with the first one? -/
def startsWithSeq : List Nat → List Nat → Bool
  | [], _ => true
  | p :: ps, c :: rest => p == c && startsWithSeq ps rest
  | _ :: _, [] => false

/-- Modelled from the spec: consume one token at the head of the list, using
greedy longest-match resolution per codepoint class.  Returns the token, the
count of codepoints consumed, and the number of lexical errors recorded. -/
def consumeTokenAux (fuel : Nat) : List Nat → Tok × Nat × Nat
  | [] => (Tok.eofToken, 0, 0)
  | c :: rest =>
    if isWs c then (Tok.whitespace, 1 + wsCount rest, 0)
    else if c = 0x22 ∨ c = 0x27 then
      let r := consumeStringBody fuel c rest []
      (r.1, 1 + r.2.1, r.2.2)
    else if c = 0x23 then
      if nameCharOrEscape rest then
        let n := consumeName fuel rest
        (Tok.hash n.1, 1 + n.2, 0)
      else (Tok.delim c, 1, 0)
    else if c = 0x24 then
      if startsWithSeq [0x3D] rest then (Tok.suffixMatch, 2, 0)
      else (Tok.delim c, 1, 0)
    else if c = 0x28 then (Tok.openParen, 1, 0)
    else if c = 0x29 then (Tok.closeParen, 1, 0)
    else if c = 0x2A then
      if startsWithSeq [0x3D] rest then (Tok.substringMatch, 2, 0)
      else (Tok.delim c, 1, 0)
    else if c = 0x2B then
      if startsNumber (c :: rest) then
        let r := consumeNumeric fuel (c :: rest)
        (r.1, r.2, 0)
      else (Tok.delim c, 1, 0)
    else if c = 0x2C then (Tok.comma, 1, 0)
    else if c = 0x2D then
      if startsNumber (c :: rest) then
        let r := consumeNumeric fuel (c :: rest)
        (r.1, r.2, 0)
      else if startsWithSeq [0x2D, 0x3E] rest then (Tok.cdc, 3, 0)
      else if wouldStartIdent (c :: rest) then consumeIdentLike fuel (c :: rest)
      else (Tok.delim c, 1, 0)
    else if c = 0x2E then
      if startsNumber (c :: rest) then
        let r := consumeNumeric fuel (c :: rest)
        (r.1, r.2, 0)
      else (Tok.delim c, 1, 0)
    else if c = 0x3A then (Tok.colon, 1, 0)
    else if c = 0x3B then (Tok.semicolon, 1, 0)
    else if c = 0x3C then
      if startsWithSeq [0x21, 0x2D, 0x2D] rest then (Tok.cdo, 4, 0)
      else (Tok.delim c, 1, 0)
    else if c = 0x40 then
      if wouldStartIdent rest then
        let n := consumeName fuel rest
        (Tok.atKeyword n.1, 1 + n.2, 0)
      else (Tok.delim c, 1, 0)
    else if c = 0x5B then (Tok.openSquare, 1, 0)
    else if c = 0x5C then
      if validEscapeTail rest then consumeIdentLike fuel (c :: rest)
      else (Tok.delim c, 1, 1)
    else if c = 0x5D then (Tok.closeSquare, 1, 0)
    else if c = 0x5E then
      if startsWithSeq [0x3D] rest then (Tok.prefixMatch, 2, 0)
      else (Tok.delim c, 1, 0)
    else if c = 0x7B then (Tok.openCurly, 1, 0)
    else if c = 0x7C then
      if startsWithSeq [0x3D] rest then (Tok.dashMatch, 2, 0)
      else if startsWithSeq [0x7C] rest then (Tok.column, 2, 0)
      else (Tok.delim c, 1, 0)
    else if c = 0x7D then (Tok.closeCurly, 1, 0)
    else if c = 0x7E then
      if startsWithSeq [0x3D] rest then (Tok.includeMatch, 2, 0)
      else (Tok.delim c, 1, 0)
    else if isDigit c then
      let r := consumeNumeric fuel (c :: rest)
      (r.1, r.2, 0)
    else if isNameStart c then consumeIdentLike fuel (c :: rest)
    else (Tok.delim c, 1, 0)

/-- Modelled from the spec: consume one token at the head of `s` (enough fuel
for the scanners is derived from the input length). -/
def consumeToken (s : List Nat) : Tok × Nat × Nat :=
  consumeTokenAux (s.length + 1) s

/-- Modelled from the spec: the tokenizer main loop.  Consumes comments, then
one token per iteration; every token's recorded offset is the position (in the
preprocessed stream) where its consumption began.  The fuel is a structural
bound on the number of iterations; `Tokenize` passes enough that it never runs
out (every iteration consumes at least one codepoint). -/
def tokenizeLoop (arr : List Nat) : Nat → Nat → List (Nat × Tok) × Nat
  | 0, _ => ([], 0)
  | fuel + 1, i =>
    let j := i + commentsLen arr.length (arr.drop i)
    if j < arr.length then
      let r := consumeToken (arr.drop j)
      let rec2 := tokenizeLoop arr fuel (j + max r.2.1 1)
      ((j, r.1) :: rec2.1, r.2.2 + rec2.2)
    else ([], 0)

/-- Modelled from the spec: `Tokenize` (declared at parse-css-urls.h:231-233,
body in the missing parse-css-urls.cc).  Tokenizes the provided codepoint
sequence; the returned stream always ends with exactly one end-marker (EOF)
token, and lexical errors are reported out of band (here: as a count). -/
def Tokenize (s : List Nat) : List (Nat × Tok) × Nat :=
  let r := tokenizeLoop s (s.length + 1) 0
  (r.1 ++ [(s.length, Tok.eofToken)], r.2)

/-! ## Segmenter

Modelled from the spec, section 4.3: a single pass over the token sequence,
tracking brace-nesting depth and whether the scan is currently inside an
`@font-face` rule body, emitting an ordered list of segments.  Non-URL token
runs are coalesced into BYTES segments by offset arithmetic against the
preprocessed input, so each internal segment carries its underlying codepoint
range. -/

/-- Segment type discriminant of `CssSegment` (parse-css-urls.h:236-249). -/
inductive SegTy where
  | BYTES
  | IMAGE_URL
  | OTHER_URL
deriving DecidableEq, Repr

/-- Internal segment: type, underlying codepoint range `[s, e)` in the
preprocessed input, and (for URL segments) the decoded URL payload. -/
structure RawSeg where
  ty : SegTy
  s : Nat
  e : Nat
  url : List Nat
deriving DecidableEq, Repr

/-- Public segment record `CssSegment` (parse-css-urls.h:235-252): a type tag
and the utf8 payload (here: its codepoint sequence). -/
structure CssSegment where
  type : SegTy
  utf8_data : List Nat
deriving DecidableEq, Repr

/-- Segmenter scanning state: start offset of the pending BYTES run, current
brace-nesting depth, the depth at which an `@font-face` body was entered (if
inside one), and whether an `@font-face` at-keyword is awaiting its `{`. -/
structure SegState where
  start : Nat
  depth : Nat
  fontFace : Option Nat
  pendingFontFace : Bool
deriving DecidableEq, Repr

/-- Modelled from the spec: URL classification, in priority order: OTHER_URL
if the current context is inside `@font-face`; otherwise IMAGE_URL (the
configured property table maps its image-bearing entries to IMAGE_URL and
IMAGE_URL is also the default fallback for unlisted properties, so outside
`@font-face` every URL is classified IMAGE_URL). -/
def ClassifyUrl (st : SegState) : SegTy :=
  if st.fontFace.isSome then SegTy.OTHER_URL else SegTy.IMAGE_URL

/-- Modelled from the spec: structural-context bookkeeping per token: the
`@font-face` at-keyword arms the flag, the next `{` enters the font-face body
at the new depth (a `;` disarms the flag), and the `}` that drops the depth
below the entry depth leaves it. -/
def stepState (st : SegState) : Tok → SegState
  | Tok.atKeyword name =>
    if lowerList name = cps "font-face" then { st with pendingFontFace := true } else st
  | Tok.semicolon => { st with pendingFontFace := false }
  | Tok.openCurly =>
    { st with
      depth := st.depth + 1,
      fontFace := if st.pendingFontFace then some (st.depth + 1) else st.fontFace,
      pendingFontFace := false }
  | Tok.closeCurly =>
    { st with
      depth := st.depth - 1,
      fontFace :=
        match st.fontFace with
        | some k => if st.depth - 1 < k then none else some k
        | none => none }
  | _ => st

/-- The BYTES segment covering `[a, b)`, or nothing when the range is empty. -/
def bytesOpt (a b : Nat) : List RawSeg :=
  if a < b then [⟨SegTy.BYTES, a, b, []⟩] else []

/-- Offset of the next token, or the input length when none remains. -/
def nextPos (N : Nat) : List (Nat × Tok) → Nat
  | [] => N
  | (p, _) :: _ => p

/-- Is the name `url`, ASCII case-insensitively? -/
def isUrlName (name : List Nat) : Bool :=
  lowerList name = cps "url"

/-- Modelled from the spec: the segmenter pass.  URL detection is either a
url-kind token or the three-token sequence function-name `url` → string →
close-parenthesis; the detected construct's range runs from the first token's
offset to the offset of the token that follows the construct.  All other
tokens fall into the pending BYTES run (updating the structural context), and
the run pending at the end-marker token becomes the final BYTES segment. -/
def walk (N : Nat) : List (Nat × Tok) → SegState → List RawSeg
  | [], _ => []
  | (p, Tok.eofToken) :: _, st => bytesOpt st.start p
  | (p, Tok.url u) :: rest, st =>
    let q := nextPos N rest
    bytesOpt st.start p ++ ⟨ClassifyUrl st, p, q, u⟩ :: walk N rest { st with start := q }
  | (p, Tok.functionToken name) :: (_, Tok.stringToken sv) :: (_, Tok.closeParen) :: rest2, st =>
    if isUrlName name then
      let q := nextPos N rest2
      bytesOpt st.start p ++ ⟨ClassifyUrl st, p, q, sv⟩ :: walk N rest2 { st with start := q }
    else
      -- the three tokens fall through into the BYTES run; none of them
      -- changes the structural context
      walk N rest2 st
  | (_, t) :: rest, st => walk N rest (stepState st t)

/-- The ranged segment list for an input stylesheet: preprocess, tokenize,
walk from offset zero with empty context. -/
def rawSegments (input : List Nat) : List RawSeg :=
  walk (Preprocess input).length (Tokenize (Preprocess input)).1 ⟨0, 0, none, false⟩

/-- Render an internal ranged segment as the public `CssSegment`: BYTES
segments carry the verbatim slice of the preprocessed input, URL segments
carry the decoded URL payload. -/
def viewSeg (pre : List Nat) (r : RawSeg) : CssSegment :=
  ⟨r.ty,
    match r.ty with
    | SegTy.BYTES => (pre.drop r.s).take (r.e - r.s)
    | _ => r.url⟩

/-- Modelled from the spec: `SegmentCss` (declared at parse-css-urls.h:264-265,
body in the missing parse-css-urls.cc).  Chops a style sheet into segments;
fails (returns `none`) only if the token stream produced by the tokenizer does
not end with the mandated end-marker token. -/
def SegmentCss (input : List Nat) : Option (List CssSegment) :=
  match (Tokenize (Preprocess input)).1.getLast? with
  | some (_, Tok.eofToken) => some ((rawSegments input).map (viewSeg (Preprocess input)))
  | _ => none

/-- Do the segments' ranges chain exactly from `a` to `e`: each segment starts
where the previous one ended, each range is well-formed, no gaps, no
overlaps? -/
def chainFrom : Nat → Nat → List RawSeg → Bool
  | a, e, [] => decide (a = e)
  | a, e, seg :: rest =>
    decide (seg.s = a) && decide (seg.s ≤ seg.e) && chainFrom seg.e e rest

/-- Tokenizer-output invariant used to establish the partition law: all token
offsets are at least `lb`, strictly below `N`, non-decreasing, and none is the
end marker. -/
def toksBelow (N : Nat) : Nat → List (Nat × Tok) → Bool
  | _, [] => true
  | lb, (p, t) :: rest =>
    decide (lb ≤ p) && decide (p < N) && !isEofTok t && toksBelow N p rest

/-- Tokenizer-output invariant: the list is non-empty, offsets are at least
`lb` and non-decreasing, exactly the last token is the end marker, and it sits
at offset `N`. -/
def toksSorted (N : Nat) : Nat → List (Nat × Tok) → Bool
  | _, [] => false
  | lb, (p, t) :: rest =>
    decide (lb ≤ p) &&
      (if rest.isEmpty then isEofTok t && decide (p = N)
       else !isEofTok t && toksSorted N p rest)

/-! ## Token class (embedded from parse-css-urls.h:31-55)

The C++ `Token` stores a `TokenType::Code` discriminant and an `int32_t`
position, initialized to zero by the constructor; `StringValue` is overridden
by `StringValuedToken` to return its stored value (the base class returns an
empty string).  The kind discriminant is represented by its numeric code. -/

/-- The observable state of a C++ `Token` object: discriminant, position, and
the string value (present only for `StringValuedToken` subclasses; the base
class's `StringValue` yields the empty string). -/
structure Token where
  type_ : Nat
  pos_ : Int
  value_ : Option (List Nat)
deriving DecidableEq, Repr

/-- `Token::Token(TokenType::Code type) : type_(type), pos_(0)`
(parse-css-urls.h:33). -/
def Token.mkToken (type : Nat) : Token := ⟨type, 0, none⟩

/-- `Token::Type()` (parse-css-urls.h:36). -/
def Token.typeCode (t : Token) : Nat := t.type_

/-- `Token::set_pos(int32_t pos)` (parse-css-urls.h:44). -/
def Token.set_pos (t : Token) (p : Int) : Token := { t with pos_ := p }

/-- `Token::pos()` (parse-css-urls.h:45). -/
def Token.pos (t : Token) : Int := t.pos_

/-- `Token::StringValue()` (parse-css-urls.h:38, override at 168): the stored
value for string-valued tokens, the empty string for the base class. -/
def Token.StringValue (t : Token) : List Nat := t.value_.getD []

/-- `Token::CopyStartPositionTo(Token* other)` (parse-css-urls.h:48-50):
`other->set_pos(pos_)`.  Returns the updated `other`; `this` is `const`. -/
def Token.CopyStartPositionTo (t other : Token) : Token := other.set_pos t.pos_

/-! ## Preprocessor lemmas -/

theorem preprocess_crlf (r : List Nat) :
    Preprocess (0x0D :: 0x0A :: r) = 0x0A :: Preprocess r := rfl

theorem preprocess_cr (r : List Nat) (h : r.head? ≠ some 0x0A) :
    Preprocess (0x0D :: r) = 0x0A :: Preprocess r := by
  match r with
  | [] => rfl
  | d :: r' =>
    have hd : ¬ d = 0x0A := by simpa using h
    rw [Preprocess]
    simp [hd]

theorem preprocess_bad (c : Nat) (r : List Nat)
    (h : c = 0 ∨ isSurrogate c = true) :
    Preprocess (c :: r) = 0xFFFD :: Preprocess r := by
  have hcr : ¬ c = 0x0D := by
    rcases h with h | h
    · omega
    · simp [isSurrogate] at h; omega
  match r with
  | [] => simp [Preprocess, hcr, h]
  | d :: r2 => simp [Preprocess, hcr, h]

theorem preprocess_keep (c : Nat) (r : List Nat)
    (h1 : c ≠ 0x0D) (h2 : c ≠ 0) (h3 : isSurrogate c = false) :
    Preprocess (c :: r) = c :: Preprocess r := by
  have hb : ¬ (c = 0 ∨ isSurrogate c = true) := by
    intro hc
    rcases hc with hc | hc
    · exact h2 hc
    · rw [h3] at hc; exact Bool.false_ne_true hc
  match r with
  | [] => simp [Preprocess, h1, hb]
  | d :: r2 => simp [Preprocess, h1, hb]

theorem preprocess_all_good :
    ∀ (n : Nat) (l : List Nat), l.length ≤ n → (Preprocess l).all goodCp = true := by
  intro n
  induction n with
  | zero =>
    intro l hl
    match l with
    | [] => rfl
    | _ :: _ => simp at hl
  | succ n ih =>
    intro l hl
    match l with
    | [] => rfl
    | c :: rest =>
      by_cases hc : c = 0x0D
      · subst hc
        match rest with
        | [] => rfl
        | d :: rest2 =>
          by_cases hd : d = 0x0A
          · subst hd
            rw [preprocess_crlf, List.all_cons, Bool.and_eq_true]
            exact ⟨by decide, ih rest2 (by simp at hl; omega)⟩
          · rw [preprocess_cr (d :: rest2) (by simpa using hd), List.all_cons,
              Bool.and_eq_true]
            exact ⟨by decide, ih (d :: rest2) (by simp at hl ⊢; omega)⟩
      · by_cases hb : c = 0 ∨ isSurrogate c = true
        · rw [preprocess_bad c rest hb, List.all_cons, Bool.and_eq_true]
          exact ⟨by decide, ih rest (by simp at hl; omega)⟩
        · push_neg at hb
          have hs : isSurrogate c = false := Bool.eq_false_iff.mpr hb.2
          rw [preprocess_keep c rest hc hb.1 hs, List.all_cons, Bool.and_eq_true]
          refine ⟨?_, ih rest (by simp at hl; omega)⟩
          simp [goodCp, hc, hb.1, hs]

theorem preprocess_fixed :
    ∀ l : List Nat, l.all goodCp = true → Preprocess l = l := by
  intro l
  induction l with
  | nil => intro _; rfl
  | cons c r ihr =>
    intro h
    rw [List.all_cons, Bool.and_eq_true] at h
    obtain ⟨hgood, hrest⟩ := h
    simp only [goodCp, Bool.and_eq_true, bne_iff_ne, ne_eq, Bool.not_eq_true'] at hgood
    obtain ⟨⟨h13, h0⟩, hs⟩ := hgood
    rw [preprocess_keep c r h13 h0 hs, ihr hrest]

theorem preprocess_idem_helper (l : List Nat) :
    Preprocess (Preprocess l) = Preprocess l :=
  preprocess_fixed _ (preprocess_all_good l.length l le_rfl)

/-! ## Tokenizer and segmenter plumbing lemmas -/

theorem getLast_append_single {α : Type} (l : List α) (a : α) :
    (l ++ [a]).getLast? = some a := by
  induction l with
  | nil => rfl
  | cons x xs ih =>
    cases xs with
    | nil => rfl
    | cons y ys =>
      simp only [List.cons_append] at ih ⊢
      rw [List.getLast?_cons_cons]
      exact ih

theorem tokenize_getLast (s : List Nat) :
    (Tokenize s).1.getLast? = some (s.length, Tok.eofToken) := by
  unfold Tokenize
  exact getLast_append_single _ _

theorem segmentcss_some (input : List Nat) :
    SegmentCss input =
      some ((rawSegments input).map (viewSeg (Preprocess input))) := by
  unfold SegmentCss
  rw [tokenize_getLast]

/-! ## The scanners never produce the end-marker token -/

theorem consumeStringBody_ne_eof :
    ∀ (fuel q : Nat) (s acc : List Nat),
      isEofTok (consumeStringBody fuel q s acc).1 = false := by
  intro fuel
  induction fuel with
  | zero =>
    intro q s acc
    cases s <;> rfl
  | succ fuel ih =>
    intro q s acc
    cases s with
    | nil => rfl
    | cons c rest =>
      rw [consumeStringBody.eq_def]
      dsimp only
      repeat' split
      all_goals first
        | rfl
        | exact ih _ _ _

theorem consumeUrlBody_ne_eof :
    ∀ (fuel : Nat) (s acc : List Nat),
      isEofTok (consumeUrlBody fuel s acc).1 = false := by
  intro fuel
  induction fuel with
  | zero =>
    intro s acc
    cases s <;> rfl
  | succ fuel ih =>
    intro s acc
    cases s with
    | nil => rfl
    | cons c rest =>
      rw [consumeUrlBody.eq_def]
      dsimp only
      repeat' split
      all_goals first
        | rfl
        | exact ih _ _

theorem consumeUrlToken_ne_eof (fuel : Nat) (s : List Nat) :
    isEofTok (consumeUrlToken fuel s).1 = false := by
  unfold consumeUrlToken
  exact consumeUrlBody_ne_eof fuel _ _

theorem consumeIdentLike_ne_eof (fuel : Nat) (s : List Nat) :
    isEofTok (consumeIdentLike fuel s).1 = false := by
  rw [consumeIdentLike.eq_def]
  dsimp only
  repeat' split
  all_goals first
    | rfl
    | exact consumeUrlToken_ne_eof fuel _

theorem consumeNumeric_ne_eof (fuel : Nat) (s : List Nat) :
    isEofTok (consumeNumeric fuel s).1 = false := by
  rw [consumeNumeric.eq_def]
  dsimp only
  repeat' split
  all_goals rfl

theorem consumeTokenAux_cons_ne_eof (fuel c : Nat) (rest : List Nat) :
    isEofTok (consumeTokenAux fuel (c :: rest)).1 = false := by
  rw [consumeTokenAux]
  by_cases h1 : isWs c = true
  · rw [if_pos h1]; rfl
  rw [if_neg h1]
  by_cases h2 : c = 0x22 ∨ c = 0x27
  · rw [if_pos h2]; exact consumeStringBody_ne_eof fuel c rest []
  rw [if_neg h2]
  by_cases h3 : c = 0x23
  · rw [if_pos h3]
    by_cases h3a : nameCharOrEscape rest = true
    · rw [if_pos h3a]; rfl
    · rw [if_neg h3a]; rfl
  rw [if_neg h3]
  by_cases h4 : c = 0x24
  · rw [if_pos h4]; split <;> rfl
  rw [if_neg h4]
  by_cases h5 : c = 0x28
  · rw [if_pos h5]; rfl
  rw [if_neg h5]
  by_cases h6 : c = 0x29
  · rw [if_pos h6]; rfl
  rw [if_neg h6]
  by_cases h7 : c = 0x2A
  · rw [if_pos h7]; split <;> rfl
  rw [if_neg h7]
  by_cases h8 : c = 0x2B
  · rw [if_pos h8]
    by_cases h8a : startsNumber (c :: rest) = true
    · rw [if_pos h8a]; exact consumeNumeric_ne_eof fuel _
    · rw [if_neg h8a]; rfl
  rw [if_neg h8]
  by_cases h9 : c = 0x2C
  · rw [if_pos h9]; rfl
  rw [if_neg h9]
  by_cases h10 : c = 0x2D
  · rw [if_pos h10]
    by_cases h10a : startsNumber (c :: rest) = true
    · rw [if_pos h10a]; exact consumeNumeric_ne_eof fuel _
    · rw [if_neg h10a]
      by_cases h10b : startsWithSeq [0x2D, 0x3E] rest = true
      · rw [if_pos h10b]; rfl
      rw [if_neg h10b]
      by_cases h10c : wouldStartIdent (c :: rest) = true
      · rw [if_pos h10c]; exact consumeIdentLike_ne_eof fuel _
      · rw [if_neg h10c]; rfl
  rw [if_neg h10]
  by_cases h11 : c = 0x2E
  · rw [if_pos h11]
    by_cases h11a : startsNumber (c :: rest) = true
    · rw [if_pos h11a]; exact consumeNumeric_ne_eof fuel _
    · rw [if_neg h11a]; rfl
  rw [if_neg h11]
  by_cases h12 : c = 0x3A
  · rw [if_pos h12]; rfl
  rw [if_neg h12]
  by_cases h13 : c = 0x3B
  · rw [if_pos h13]; rfl
  rw [if_neg h13]
  by_cases h14 : c = 0x3C
  · rw [if_pos h14]; split <;> rfl
  rw [if_neg h14]
  by_cases h15 : c = 0x40
  · rw [if_pos h15]
    by_cases h15a : wouldStartIdent rest = true
    · rw [if_pos h15a]; rfl
    · rw [if_neg h15a]; rfl
  rw [if_neg h15]
  by_cases h16 : c = 0x5B
  · rw [if_pos h16]; rfl
  rw [if_neg h16]
  by_cases h17 : c = 0x5C
  · rw [if_pos h17]
    by_cases h17a : validEscapeTail rest = true
    · rw [if_pos h17a]; exact consumeIdentLike_ne_eof fuel _
    · rw [if_neg h17a]; rfl
  rw [if_neg h17]
  by_cases h18 : c = 0x5D
  · rw [if_pos h18]; rfl
  rw [if_neg h18]
  by_cases h19 : c = 0x5E
  · rw [if_pos h19]; split <;> rfl
  rw [if_neg h19]
  by_cases h20 : c = 0x7B
  · rw [if_pos h20]; rfl
  rw [if_neg h20]
  by_cases h21 : c = 0x7C
  · rw [if_pos h21]
    split
    · rfl
    · split <;> rfl
  rw [if_neg h21]
  by_cases h22 : c = 0x7D
  · rw [if_pos h22]; rfl
  rw [if_neg h22]
  by_cases h23 : c = 0x7E
  · rw [if_pos h23]; split <;> rfl
  rw [if_neg h23]
  by_cases h24 : isDigit c = true
  · rw [if_pos h24]; exact consumeNumeric_ne_eof fuel _
  rw [if_neg h24]
  by_cases h25 : isNameStart c = true
  · rw [if_pos h25]; exact consumeIdentLike_ne_eof fuel _
  · rw [if_neg h25]; rfl

theorem consumeToken_cons_ne_eof (c : Nat) (rest : List Nat) :
    isEofTok (consumeToken (c :: rest)).1 = false :=
  consumeTokenAux_cons_ne_eof _ c rest

theorem consumeToken_drop_ne_eof (arr : List Nat) (j : Nat) (h : j < arr.length) :
    isEofTok (consumeToken (arr.drop j)).1 = false := by
  have hlen : (arr.drop j).length = arr.length - j := by
    simp [List.length_drop]
  cases hd : arr.drop j with
  | nil =>
    rw [hd] at hlen
    simp at hlen
    omega
  | cons c rest => exact consumeToken_cons_ne_eof c rest

/-! ## Tokenizer-output invariants -/

theorem toksBelow_mono (N : Nat) (l : List (Nat × Tok)) (a b : Nat)
    (hba : b ≤ a) (h : toksBelow N a l = true) : toksBelow N b l = true := by
  cases l with
  | nil => rfl
  | cons pt rest =>
    obtain ⟨p, t⟩ := pt
    rw [toksBelow] at h ⊢
    simp only [Bool.and_eq_true, decide_eq_true_eq] at h ⊢
    exact ⟨⟨⟨le_trans hba h.1.1.1, h.1.1.2⟩, h.1.2⟩, h.2⟩

theorem tokenizeLoop_below (arr : List Nat) :
    ∀ (fuel i : Nat), toksBelow arr.length i (tokenizeLoop arr fuel i).1 = true := by
  intro fuel
  induction fuel with
  | zero => intro i; rfl
  | succ fuel ih =>
    intro i
    rw [tokenizeLoop]
    dsimp only
    split
    · rename_i hj
      rw [toksBelow]
      simp only [Bool.and_eq_true, decide_eq_true_eq, Bool.not_eq_true']
      refine ⟨⟨⟨Nat.le_add_right i _, hj⟩, consumeToken_drop_ne_eof arr _ hj⟩, ?_⟩
      exact toksBelow_mono arr.length _ _ _ (Nat.le_add_right _ _) (ih _)
    · rfl

theorem toksBelow_count (N : Nat) :
    ∀ (l : List (Nat × Tok)) (lb : Nat), toksBelow N lb l = true →
      l.countP (fun pt => isEofTok pt.2) = 0 := by
  intro l
  induction l with
  | nil => intro lb _; rfl
  | cons pt rest ih =>
    intro lb h
    obtain ⟨p, t⟩ := pt
    rw [toksBelow] at h
    simp only [Bool.and_eq_true, decide_eq_true_eq, Bool.not_eq_true'] at h
    rw [List.countP_cons]
    simp [h.1.2, ih p h.2]

theorem below_append_eof (N : Nat) :
    ∀ (l : List (Nat × Tok)) (lb : Nat), lb ≤ N → toksBelow N lb l = true →
      toksSorted N lb (l ++ [(N, Tok.eofToken)]) = true := by
  intro l
  induction l with
  | nil =>
    intro lb hlb _
    rw [List.nil_append, toksSorted]
    simp [hlb, isEofTok]
  | cons pt rest ih =>
    intro lb hlb h
    obtain ⟨p, t⟩ := pt
    rw [toksBelow] at h
    simp only [Bool.and_eq_true, decide_eq_true_eq, Bool.not_eq_true'] at h
    obtain ⟨⟨⟨hlbp, hpN⟩, hne⟩, hrest⟩ := h
    rw [List.cons_append, toksSorted]
    have hemp : (rest ++ [(N, Tok.eofToken)]).isEmpty = false := by
      cases rest <;> rfl
    rw [hemp]
    simp only [Bool.false_eq_true, if_false, Bool.and_eq_true, decide_eq_true_eq,
      Bool.not_eq_true']
    exact ⟨hlbp, hne, ih p (Nat.le_of_lt hpN) hrest⟩

theorem tokenize_sorted (s : List Nat) :
    toksSorted s.length 0 (Tokenize s).1 = true := by
  show toksSorted s.length 0
    ((tokenizeLoop s (s.length + 1) 0).1 ++ [(s.length, Tok.eofToken)]) = true
  exact below_append_eof s.length _ 0 (Nat.zero_le _) (tokenizeLoop_below s _ 0)

theorem toksSorted_head_le (N lb p : Nat) (t : Tok) (rest : List (Nat × Tok))
    (h : toksSorted N lb ((p, t) :: rest) = true) : lb ≤ p := by
  rw [toksSorted] at h
  simp only [Bool.and_eq_true, decide_eq_true_eq] at h
  exact h.1

theorem toksSorted_self (N lb p : Nat) (t : Tok) (rest : List (Nat × Tok))
    (h : toksSorted N lb ((p, t) :: rest) = true) :
    toksSorted N p ((p, t) :: rest) = true := by
  rw [toksSorted] at h ⊢
  simp only [Bool.and_eq_true, decide_eq_true_eq] at h ⊢
  exact ⟨le_refl p, h.2⟩

/-! ## The partition law -/

theorem chain_cons_url (a p q N : Nat) (ty : SegTy) (u : List Nat) (l : List RawSeg)
    (h1 : a ≤ p) (h2 : p ≤ q) (h3 : chainFrom q N l = true) :
    chainFrom a N (bytesOpt a p ++ ⟨ty, p, q, u⟩ :: l) = true := by
  unfold bytesOpt
  by_cases hap : a < p
  · rw [if_pos hap]
    simp [chainFrom, h2, h3, Nat.le_of_lt hap]
  · rw [if_neg hap]
    have hap2 : a = p := Nat.le_antisymm h1 (Nat.not_lt.mp hap)
    subst hap2
    simp [chainFrom, h2, h3]

theorem stepState_start (st : SegState) (t : Tok) :
    (stepState st t).start = st.start := by
  cases t <;> first
    | rfl
    | (rw [stepState]; split <;> rfl)

theorem chain_step_gen (N n : Nat)
    (ih : ∀ (toks : List (Nat × Tok)), toks.length ≤ n →
      ∀ (lb : Nat) (st : SegState), toksSorted N lb toks = true → st.start ≤ lb →
      chainFrom st.start N (walk N toks st) = true)
    (p : Nat) (t : Tok) (rest : List (Nat × Tok)) (st : SegState)
    (hlen : rest.length ≤ n)
    (hs : toksSorted N p ((p, t) :: rest) = true)
    (hst : st.start ≤ p)
    (hne : isEofTok t = false)
    (hgen : walk N ((p, t) :: rest) st = walk N rest (stepState st t)) :
    chainFrom st.start N (walk N ((p, t) :: rest) st) = true := by
  rw [hgen]
  cases rest with
  | nil =>
    exfalso
    rw [toksSorted] at hs
    simp [hne] at hs
  | cons pt2 r2 =>
    obtain ⟨p2, t2⟩ := pt2
    rw [toksSorted] at hs
    simp only [List.isEmpty_cons, Bool.false_eq_true, if_false, Bool.and_eq_true,
      decide_eq_true_eq, Bool.not_eq_true'] at hs
    obtain ⟨_, _, hrest⟩ := hs
    have h2 : toksSorted N p2 ((p2, t2) :: r2) = true :=
      toksSorted_self N p p2 t2 r2 hrest
    have hp2 : p ≤ p2 := toksSorted_head_le N p p2 t2 r2 hrest
    rw [← stepState_start st t]
    refine ih ((p2, t2) :: r2) hlen p2 (stepState st t) h2 ?_
    rw [stepState_start]
    exact le_trans hst hp2

theorem walk_chain (N : Nat) :
    ∀ (n : Nat) (toks : List (Nat × Tok)), toks.length ≤ n →
    ∀ (lb : Nat) (st : SegState), toksSorted N lb toks = true → st.start ≤ lb →
    chainFrom st.start N (walk N toks st) = true := by
  intro n
  induction n with
  | zero =>
    intro toks hlen lb st hs _
    cases toks with
    | nil => rw [toksSorted] at hs; exact absurd hs (by simp)
    | cons pt rest => simp at hlen
  | succ n ih =>
    intro toks hlen lb st hs hst
    cases toks with
    | nil => rw [toksSorted] at hs; exact absurd hs (by simp)
    | cons pt rest =>
      obtain ⟨p, t⟩ := pt
      have hlb : lb ≤ p := toksSorted_head_le N lb p t rest hs
      have hs' : toksSorted N p ((p, t) :: rest) = true :=
        toksSorted_self N lb p t rest hs
      have hlen' : rest.length ≤ n := by
        simp only [List.length_cons] at hlen
        omega
      have hstp : st.start ≤ p := le_trans hst hlb
      cases t
      case eofToken =>
        cases rest with
        | nil =>
          have hred : walk N [(p, Tok.eofToken)] st = bytesOpt st.start p := rfl
          rw [hred]
          rw [toksSorted] at hs'
          simp only [List.isEmpty_nil, if_true, Bool.and_eq_true, decide_eq_true_eq,
            isEofTok, Bool.true_and] at hs'
          have hpN : p = N := hs'.2
          rw [hpN]
          rw [hpN] at hstp
          unfold bytesOpt
          by_cases hsp : st.start < N
          · rw [if_pos hsp]
            simp [chainFrom, Nat.le_of_lt hsp]
          · rw [if_neg hsp]
            have heq : st.start = N := Nat.le_antisymm hstp (Nat.not_lt.mp hsp)
            simp [chainFrom, heq]
        | cons x xs =>
          exfalso
          rw [toksSorted] at hs'
          simp [isEofTok] at hs'
      case url u =>
        cases rest with
        | nil =>
          exfalso
          rw [toksSorted] at hs'
          simp [isEofTok] at hs'
        | cons pt2 r2 =>
          obtain ⟨p2, t2⟩ := pt2
          have hred : walk N ((p, Tok.url u) :: (p2, t2) :: r2) st =
              bytesOpt st.start p ++ ⟨ClassifyUrl st, p, p2, u⟩ ::
                walk N ((p2, t2) :: r2) { st with start := p2 } := rfl
          rw [hred]
          rw [toksSorted] at hs'
          simp only [List.isEmpty_cons, Bool.false_eq_true, if_false, Bool.and_eq_true,
            decide_eq_true_eq, Bool.not_eq_true'] at hs'
          obtain ⟨_, _, hs2⟩ := hs'
          have hpp2 : p ≤ p2 := toksSorted_head_le N p p2 t2 r2 hs2
          have hs3 : toksSorted N p2 ((p2, t2) :: r2) = true :=
            toksSorted_self N p p2 t2 r2 hs2
          refine chain_cons_url st.start p p2 N (ClassifyUrl st) u _ hstp hpp2 ?_
          exact ih ((p2, t2) :: r2) hlen' p2 { st with start := p2 } hs3 (le_refl p2)
      case functionToken name =>
        cases rest with
        | nil =>
          exfalso
          rw [toksSorted] at hs'
          simp [isEofTok] at hs'
        | cons pt2 r2 =>
          obtain ⟨p2, t2⟩ := pt2
          cases t2
          case stringToken sv =>
            cases r2 with
            | nil =>
              exfalso
              rw [toksSorted] at hs'
              simp only [List.isEmpty_cons, Bool.false_eq_true, if_false,
                Bool.and_eq_true, decide_eq_true_eq, Bool.not_eq_true'] at hs'
              have h2 := hs'.2.2
              rw [toksSorted] at h2
              simp [isEofTok] at h2
            | cons pt3 r3 =>
              obtain ⟨p3, t3⟩ := pt3
              cases t3
              case closeParen =>
                cases r3 with
                | nil =>
                  exfalso
                  rw [toksSorted] at hs'
                  simp only [List.isEmpty_cons, Bool.false_eq_true, if_false,
                    Bool.and_eq_true, decide_eq_true_eq, Bool.not_eq_true'] at hs'
                  have h2 := hs'.2.2
                  rw [toksSorted] at h2
                  simp only [List.isEmpty_cons, Bool.false_eq_true, if_false,
                    Bool.and_eq_true, decide_eq_true_eq, Bool.not_eq_true'] at h2
                  have h3 := h2.2.2
                  rw [toksSorted] at h3
                  simp [isEofTok] at h3
                | cons pt4 r4 =>
                  obtain ⟨p4, t4⟩ := pt4
                  rw [toksSorted] at hs'
                  simp only [List.isEmpty_cons, Bool.false_eq_true, if_false,
                    Bool.and_eq_true, decide_eq_true_eq, Bool.not_eq_true'] at hs'
                  obtain ⟨-, -, hs2⟩ := hs'
                  have hpp2 : p ≤ p2 := toksSorted_head_le _ _ _ _ _ hs2
                  rw [toksSorted] at hs2
                  simp only [List.isEmpty_cons, Bool.false_eq_true, if_false,
                    Bool.and_eq_true, decide_eq_true_eq, Bool.not_eq_true'] at hs2
                  obtain ⟨-, -, hs3⟩ := hs2
                  have hp23 : p2 ≤ p3 := toksSorted_head_le _ _ _ _ _ hs3
                  rw [toksSorted] at hs3
                  simp only [List.isEmpty_cons, Bool.false_eq_true, if_false,
                    Bool.and_eq_true, decide_eq_true_eq, Bool.not_eq_true'] at hs3
                  obtain ⟨-, -, hs4⟩ := hs3
                  have hp34 : p3 ≤ p4 := toksSorted_head_le _ _ _ _ _ hs4
                  have hs5 : toksSorted N p4 ((p4, t4) :: r4) = true :=
                    toksSorted_self _ _ _ _ _ hs4
                  have hlen4 : ((p4, t4) :: r4).length ≤ n := by
                    simp only [List.length_cons] at hlen ⊢
                    omega
                  have hred : walk N ((p, Tok.functionToken name) ::
                      (p2, Tok.stringToken sv) :: (p3, Tok.closeParen) ::
                      (p4, t4) :: r4) st =
                      if isUrlName name then
                        bytesOpt st.start p ++ ⟨ClassifyUrl st, p, p4, sv⟩ ::
                          walk N ((p4, t4) :: r4) { st with start := p4 }
                      else walk N ((p4, t4) :: r4) st := rfl
                  rw [hred]
                  by_cases hurl : isUrlName name = true
                  · rw [if_pos hurl]
                    refine chain_cons_url st.start p p4 N (ClassifyUrl st) sv _ hstp
                      (le_trans hpp2 (le_trans hp23 hp34)) ?_
                    exact ih ((p4, t4) :: r4) hlen4 p4 { st with start := p4 } hs5
                      (le_refl p4)
                  · rw [if_neg hurl]
                    exact ih ((p4, t4) :: r4) hlen4 p4 st hs5
                      (le_trans hstp (le_trans hpp2 (le_trans hp23 hp34)))
              all_goals
                exact chain_step_gen N n ih p (Tok.functionToken name) _ st hlen' hs'
                  hstp rfl rfl
          all_goals
            exact chain_step_gen N n ih p (Tok.functionToken name) _ st hlen' hs'
              hstp rfl rfl
      all_goals
        exact chain_step_gen N n ih p _ _ st hlen' hs' hstp rfl rfl

/-! ## Claim theorems (part 1: those not needing the partition machinery) -/

/-- C2: `SegmentCss` applied to `a{background:url(foo.png)}` succeeds and
produces exactly the three segments BYTES("a{background:"),
IMAGE_URL("foo.png"), BYTES("}") in that order. -/
theorem claim_background_url_segments :
    SegmentCss (cps "a\x7bbackground:url(foo.png)\x7d") =
      some [⟨SegTy.BYTES, cps "a\x7bbackground:"⟩,
            ⟨SegTy.IMAGE_URL, cps "foo.png"⟩,
            ⟨SegTy.BYTES, cps "\x7d"⟩] := by decide

/-- C3: every URL detected while the context is inside an `@font-face` rule
body is classified OTHER_URL; in particular `SegmentCss` on
`@font-face{src:url(foo.woff)}` emits the URL segment OTHER_URL("foo.woff"). -/
theorem claim_fontface_other_url :
    (∀ st : SegState, st.fontFace.isSome = true → ClassifyUrl st = SegTy.OTHER_URL) ∧
    SegmentCss (cps "@font-face\x7bsrc:url(foo.woff)\x7d") =
      some [⟨SegTy.BYTES, cps "@font-face\x7bsrc:"⟩,
            ⟨SegTy.OTHER_URL, cps "foo.woff"⟩,
            ⟨SegTy.BYTES, cps "\x7d"⟩] := by
  constructor
  · intro st h
    unfold ClassifyUrl
    rw [if_pos h]
  · decide

/-- C3 witness: the classification applied at a concrete in-font-face state. -/
theorem claim_fontface_other_url_witness :
    ClassifyUrl ⟨0, 1, some 1, false⟩ = SegTy.OTHER_URL :=
  claim_fontface_other_url.1 ⟨0, 1, some 1, false⟩ rfl

/-- C4: URL segment payloads have the `url(...)` wrapper and quotes stripped
and CSS escapes decoded: `url('foo.png')` and `url(foo.png)` in the same
context both yield payload `foo.png`, and the hex escape `\41` decodes to the
literal `A` in the extracted payload. -/
theorem claim_url_payload_unwrapped :
    SegmentCss (cps "a\x7bbackground:url(\x27foo.png\x27)\x7d") =
      some [⟨SegTy.BYTES, cps "a\x7bbackground:"⟩,
            ⟨SegTy.IMAGE_URL, cps "foo.png"⟩,
            ⟨SegTy.BYTES, cps "\x7d"⟩] ∧
    SegmentCss (cps "a\x7bbackground:url(foo.png)\x7d") =
      some [⟨SegTy.BYTES, cps "a\x7bbackground:"⟩,
            ⟨SegTy.IMAGE_URL, cps "foo.png"⟩,
            ⟨SegTy.BYTES, cps "\x7d"⟩] ∧
    SegmentCss (cps "a\x7bbackground:url(\\41.png)\x7d") =
      some [⟨SegTy.BYTES, cps "a\x7bbackground:"⟩,
            ⟨SegTy.IMAGE_URL, cps "A.png"⟩,
            ⟨SegTy.BYTES, cps "\x7d"⟩] :=
  ⟨by decide, by decide, by decide⟩

/-- C5: `SegmentCss` never fails, and on the malformed construct
`url(bad "quote" inside)` the whole input lands in a single BYTES segment
(never an IMAGE_URL or OTHER_URL segment). -/
theorem claim_malformed_url_degrades :
    (∀ input : List Nat, (SegmentCss input).isSome = true) ∧
    SegmentCss (cps "a\x7bbackground:url(bad \x22quote\x22 inside)\x7d") =
      some [⟨SegTy.BYTES, cps "a\x7bbackground:url(bad \x22quote\x22 inside)\x7d"⟩] := by
  constructor
  · intro input
    rw [segmentcss_some]
    rfl
  · decide

/-- C7: `SegmentCss` fails only when the tokenizer's output does not end with
the end-marker token — a condition that never occurs — and the empty input
yields success with an empty segment list and no lexical errors. -/
theorem claim_failure_only_missing_eof :
    (∀ input : List Nat,
      (Tokenize (Preprocess input)).1.getLast? =
        some ((Preprocess input).length, Tok.eofToken)) ∧
    (∀ input : List Nat, (SegmentCss input).isSome = true) ∧
    SegmentCss [] = some [] ∧
    (Tokenize (Preprocess [])).2 = 0 :=
  ⟨fun _ => tokenize_getLast _,
   fun input => by rw [segmentcss_some]; rfl,
   by decide, by decide⟩

/-- C8: `Preprocess` is idempotent. -/
theorem claim_preprocess_idempotent (l : List Nat) :
    Preprocess (Preprocess l) = Preprocess l :=
  preprocess_idem_helper l

/-- C9: `Preprocess` replaces each CRLF pair and each lone CR with a single
LF, replaces NUL and every surrogate codepoint with U+FFFD, and leaves all
other codepoints unchanged in order (it produces no tokens: its output is
again a plain codepoint sequence). -/
theorem claim_preprocess_effects :
    (∀ r : List Nat, Preprocess (0x0D :: 0x0A :: r) = 0x0A :: Preprocess r) ∧
    (∀ r : List Nat, r.head? ≠ some 0x0A → Preprocess (0x0D :: r) = 0x0A :: Preprocess r) ∧
    (∀ (c : Nat) (r : List Nat), c = 0 ∨ isSurrogate c = true →
      Preprocess (c :: r) = 0xFFFD :: Preprocess r) ∧
    (∀ (c : Nat) (r : List Nat), c ≠ 0x0D → c ≠ 0 → isSurrogate c = false →
      Preprocess (c :: r) = c :: Preprocess r) ∧
    Preprocess [] = [] :=
  ⟨preprocess_crlf, preprocess_cr, preprocess_bad, preprocess_keep, rfl⟩

/-- C9 witness: the characterization applied at concrete inputs. -/
theorem claim_preprocess_effects_witness :
    Preprocess [0x0D, 0x0A, 0x41] = [0x0A, 0x41] ∧
    Preprocess [0x0D, 0x42] = [0x0A, 0x42] ∧
    Preprocess [0, 0x41] = [0xFFFD, 0x41] ∧
    Preprocess [0xD800] = [0xFFFD] ∧
    Preprocess [0x41, 0x42] = [0x41, 0x42] := by
  refine ⟨?_, ?_, ?_, ?_, ?_⟩
  · rw [claim_preprocess_effects.1 [0x41]]; decide
  · rw [claim_preprocess_effects.2.1 [0x42] (by decide)]; decide
  · rw [claim_preprocess_effects.2.2.1 0 [0x41] (Or.inl rfl)]; decide
  · rw [claim_preprocess_effects.2.2.1 0xD800 [] (Or.inr (by decide))]; decide
  · rw [claim_preprocess_effects.2.2.2.1 0x41 [0x42] (by decide) (by decide) (by decide)]
    decide

/-- C10: `CopyStartPositionTo` makes the target's `pos` equal the source's
`pos` and leaves the target's type and string value unchanged (the source is
`const`); a freshly constructed `Token` has `pos` zero. -/
theorem claim_token_copy_start_position :
    (∀ t o : Token,
      (t.CopyStartPositionTo o).pos = t.pos ∧
      (t.CopyStartPositionTo o).typeCode = o.typeCode ∧
      (t.CopyStartPositionTo o).StringValue = o.StringValue) ∧
    (∀ ty : Nat, (Token.mkToken ty).pos = 0) :=
  ⟨fun _ _ => ⟨rfl, rfl, rfl⟩, fun _ => rfl⟩

/-- C1 counterexample: for the input CRLF the segment ranges do not span the
original input (preprocessing collapsed two codepoints into one, so the ranges
end at offset 1 while the original input has length 2). -/
theorem claim_partition_cex :
    SegmentCss [0x0D, 0x0A] = some [⟨SegTy.BYTES, [0x0A]⟩] ∧
    chainFrom 0 ([0x0D, 0x0A] : List Nat).length (rawSegments [0x0D, 0x0A]) = false :=
  ⟨by decide, by decide⟩

/-- C1 (amended): `SegmentCss` always succeeds with the rendering of the
ranged segment list, whose underlying ranges are contiguous, non-overlapping,
and together span the whole *preprocessed* input — the partition is exact over
the input as normalized by `Preprocess` (equal to the original input whenever
preprocessing leaves it unchanged). -/
theorem claim_segment_partition (input : List Nat) :
    SegmentCss input = some ((rawSegments input).map (viewSeg (Preprocess input))) ∧
    chainFrom 0 (Preprocess input).length (rawSegments input) = true := by
  refine ⟨segmentcss_some input, ?_⟩
  exact walk_chain (Preprocess input).length
    ((Tokenize (Preprocess input)).1.length) (Tokenize (Preprocess input)).1 le_rfl
    0 ⟨0, 0, none, false⟩ (tokenize_sorted (Preprocess input)) (Nat.le_refl 0)

/-- C6: for every input codepoint sequence, the token stream returned by
`Tokenize` is non-empty, its last element is the end-marker token (at the
input's length), and no other element is an end-marker token. -/
theorem claim_tokenize_single_eof (s : List Nat) :
    0 < (Tokenize s).1.length ∧
    (Tokenize s).1.getLast? = some (s.length, Tok.eofToken) ∧
    (Tokenize s).1.countP (fun pt => isEofTok pt.2) = 1 := by
  refine ⟨?_, tokenize_getLast s, ?_⟩
  · show 0 < ((tokenizeLoop s (s.length + 1) 0).1 ++ [(s.length, Tok.eofToken)]).length
    simp
  · show ((tokenizeLoop s (s.length + 1) 0).1 ++ [(s.length, Tok.eofToken)]).countP
      (fun pt => isEofTok pt.2) = 1
    rw [List.countP_append,
      toksBelow_count s.length _ 0 (tokenizeLoop_below s (s.length + 1) 0)]
    rfl

end CssUrls

